import Mathlib

/-!
Verification of the in17clock firmware core (nixie-tube clock).

Shallow embedding of the algorithmic parts of the firmware:
button debouncing (`buttons.h` / `buttons.cpp`), the digit multiplexer
(`digits.cpp`), the boost-converter soft start and PID clamping
(`power.cpp`), and the tone engine (`buzzer.cpp`).  Machine integers are
modelled as `Nat` with explicit reduction modulo `2^w` where overflow
matters; the handful of float computations are modelled over `ℚ`/`Nat`
at the points where the float arithmetic is exact (noted at each
definition).
-/

namespace In17

/-! ## Button debouncing (src/include/buttons.h, src/buttons.cpp)

The macro `DEBOUNCING_RETURN(name, name_state, name_last)` expands to

  name_state <<= 1;
  name_state |= name & 0x01;
  name_last = name_state == 0xFFFF ? true : !name_state ? false : name_last;
  return name_last;

where `name_state` is a `uint16_t` history register and `name_last` the
reported stable value.  Every poll accessor (`get_up`, `get_down`,
`get_weather`, `get_set`, `get_alarm`) copies the raw interrupt-sampled
boolean and runs this macro on its own pair of registers. -/

/-- One poll step of the `DEBOUNCING_RETURN` macro (buttons.h lines 31-35):
shift the 16-bit history left, or in the raw sample bit, then update the
stable value only on a unanimous history.  Returns the new
`(history, stable)` pair; the macro returns the second component. -/
def debounce_step (raw : Bool) (state : Nat) (last : Bool) : Nat × Bool :=
  let state' := ((state <<< 1) % 65536) ||| (if raw then 1 else 0)
  (state', if state' = 65535 then true else if state' = 0 then false else last)

/-- Iterated polling with a constant raw sample: `n` consecutive calls of
the accessor while the interrupt-sampled level stays `raw`. -/
def debounce_iter (raw : Bool) : Nat → Nat → Bool → Nat × Bool
  | 0, s, l => (s, l)
  | n + 1, s, l => debounce_iter raw n (debounce_step raw s l).1 (debounce_step raw s l).2

lemma two_mul_or_one (k : Nat) : 2 * k ||| 1 = 2 * k + 1 := by
  have h := Nat.lor_bit false k true 0
  simpa [Nat.bit_val] using h

/-- The history register update is arithmetically `(2*s + bit) % 2^16`. -/
lemma debounce_step_fst (raw : Bool) (s : Nat) (l : Bool) :
    (debounce_step raw s l).1 = (2 * s + (if raw then 1 else 0)) % 65536 := by
  have h1 : s <<< 1 = 2 * s := by
    rw [Nat.shiftLeft_eq]; ring
  cases raw with
  | false =>
    show ((s <<< 1) % 65536 ||| 0) = (2 * s + 0) % 65536
    rw [h1]
    simp
  | true =>
    show ((s <<< 1) % 65536 ||| 1) = (2 * s + 1) % 65536
    rw [h1]
    have h2 : (2 * s) % 65536 = 2 * (s % 32768) := by
      have := Nat.mul_mod_mul_left 2 s 32768
      simpa using this
    rw [h2, two_mul_or_one]
    omega

/-- The stable value reported by a poll, in terms of the updated history. -/
lemma debounce_step_snd (raw : Bool) (s : Nat) (l : Bool) :
    (debounce_step raw s l).2 =
      if (debounce_step raw s l).1 = 65535 then true
      else if (debounce_step raw s l).1 = 0 then false else l := rfl

/-- The updated history always fits in 16 bits. -/
lemma debounce_step_fst_lt (raw : Bool) (s : Nat) (l : Bool) :
    (debounce_step raw s l).1 < 65536 := by
  rw [debounce_step_fst]
  exact Nat.mod_lt _ (by norm_num)

/-- Arithmetic of shifting one more copy of the bit `b` into a history
that already ends in `n` copies of `b`. -/
lemma shift_in_arith (s n b : Nat) (hb : b ≤ 1) :
    (2 * s + b) * 2 ^ n + b * (2 ^ n - 1) =
      s * 2 ^ (n + 1) + b * (2 ^ (n + 1) - 1) := by
  have hp : 1 ≤ 2 ^ n := Nat.one_le_two_pow
  have hpow : (2 : Nat) ^ (n + 1) = 2 * 2 ^ n := by ring
  rw [hpow]
  interval_cases b
  · ring
  · have e1 : (2 * s + 1) * 2 ^ n = 2 * (s * 2 ^ n) + 2 ^ n := by ring
    have e2 : s * (2 * 2 ^ n) = 2 * (s * 2 ^ n) := by ring
    omega

/-- State of the history register after `n` polls with constant raw level:
the initial contents shifted out, `n` copies of the raw bit shifted in. -/
lemma debounce_iter_fst (raw : Bool) :
    ∀ (n : Nat) (s : Nat) (l : Bool), s < 65536 →
      (debounce_iter raw n s l).1 =
        (s * 2 ^ n + (if raw then 1 else 0) * (2 ^ n - 1)) % 65536 := by
  intro n
  induction n with
  | zero =>
    intro s l hs
    simp [debounce_iter, Nat.mod_eq_of_lt hs]
  | succ n ih =>
    intro s l hs
    show (debounce_iter raw n _ _).1 = _
    rw [ih _ _ (debounce_step_fst_lt raw s l), debounce_step_fst]
    have hmod : ((2 * s + (if raw then 1 else 0)) % 65536) * 2 ^ n +
          (if raw then 1 else 0) * (2 ^ n - 1) ≡
        (2 * s + (if raw then 1 else 0)) * 2 ^ n +
          (if raw then 1 else 0) * (2 ^ n - 1) [MOD 65536] :=
      Nat.ModEq.add_right _ (Nat.ModEq.mul_right _ (Nat.mod_modEq _ _))
    rw [Nat.ModEq] at hmod
    rw [hmod]
    congr 1
    exact shift_in_arith s n _ (by cases raw <;> simp)

/-- A nonempty run of polls leaves the stable value consistent with the
final history: unanimous histories force the value. -/
lemma debounce_iter_snd_unanimous (raw : Bool) :
    ∀ (n : Nat) (s : Nat) (l : Bool),
      ((debounce_iter raw (n + 1) s l).1 = 65535 →
        (debounce_iter raw (n + 1) s l).2 = true) ∧
      ((debounce_iter raw (n + 1) s l).1 = 0 →
        (debounce_iter raw (n + 1) s l).2 = false) := by
  intro n
  induction n with
  | zero =>
    intro s l
    have h1 : debounce_iter raw 1 s l = debounce_step raw s l := rfl
    rw [h1]
    constructor
    · intro h
      rw [debounce_step_snd, h]
      simp
    · intro h
      rw [debounce_step_snd, h]
      simp
  | succ n ih =>
    intro s l
    exact ih (debounce_step raw s l).1 (debounce_step raw s l).2

/-- C1.  Each poll shifts the raw sample into the 16-bit history and
returns `true` on an all-ones history, `false` on an all-zeros history,
and the previously reported value otherwise; a non-unanimous history
never changes the reported state, and 16 consecutive identical raw
samples make the reported state equal that sample whatever the initial
history and state were. -/
theorem buttons_debounce_correct (raw : Bool) (state : Nat) (last : Bool)
    (hstate : state < 65536) :
    ((debounce_step raw state last).1 = (2 * state + (if raw then 1 else 0)) % 65536) ∧
    ((debounce_step raw state last).1 = 65535 → (debounce_step raw state last).2 = true) ∧
    ((debounce_step raw state last).1 = 0 → (debounce_step raw state last).2 = false) ∧
    ((debounce_step raw state last).1 ≠ 65535 → (debounce_step raw state last).1 ≠ 0 →
      (debounce_step raw state last).2 = last) ∧
    ((debounce_iter raw 16 state last).2 = raw) := by
  refine ⟨debounce_step_fst raw state last, ?_, ?_, ?_, ?_⟩
  · intro h
    rw [debounce_step_snd, h]
    simp
  · intro h
    rw [debounce_step_snd, h]
    simp
  · intro h1 h0
    rw [debounce_step_snd, if_neg h1, if_neg h0]
  · have hfst := debounce_iter_fst raw 16 state last hstate
    have hsnd := debounce_iter_snd_unanimous raw 15 state last
    cases raw with
    | false =>
      apply hsnd.2
      rw [hfst]
      norm_num
    | true =>
      apply hsnd.1
      rw [hfst]
      norm_num
      omega

/-- Witness for C1 at a concrete input: a raw `true` sample shifted into
the empty history, and 16 consecutive `true` samples from history 0. -/
theorem buttons_debounce_correct_witness :
    (0 : Nat) < 65536 ∧ (debounce_iter true 16 0 false).2 = true := by
  refine ⟨by decide, ?_⟩
  exact (buttons_debounce_correct true 0 false (by decide)).2.2.2.2

/-! ## Digit multiplexing (src/digits.cpp, src/include/pins.h)

Shipped configuration from pins.h: `ANODES_INVERTED` is defined,
`NUMBERS_INVERTED` and `SEPARATOR_INVERTED` are commented out. -/

def DIGITS_NUM : Nat := 4

/-- Anode (position-select) bits, pins.h line 38. -/
def PINS_ANODES : List Nat := [0x2000, 0x0800, 0x0080, 0x0004]

/-- Cathode (digit-select) bits, pins.h lines 44-46. -/
def PINS_NUMBERS : List Nat :=
  [0x4000, 0x0001, 0x8000, 0x1000, 0x0400, 0x0200, 0x0040, 0x0008, 0x0020, 0x0002]

/-- Separator bit, pins.h line 52. -/
def PIN_SEPARATOR : Nat := 0x0010

/-- Counter advance in `Digits::isr_callback_handler` (digits.cpp lines
86-91): `digit_counter++` on a uint8, then reset to 0 on reaching
`DIGITS_NUM`.  The handler writes the mask for the counter value it read
before advancing. -/
def digit_counter_next (c : Nat) : Nat :=
  if (c + 1) % 256 = DIGITS_NUM then 0 else (c + 1) % 256

/-- Positions written over `n` consecutive timer ticks starting from
counter value `c`: each tick writes the current position, then advances. -/
def mux_positions : Nat → Nat → List Nat
  | 0, _ => []
  | n + 1, c => c :: mux_positions n (digit_counter_next c)

/-- C2.  The digit position counter stays in 0..3 (it starts at 0 since
the `Digits` instance is zero-initialized), each tick advances it by
exactly one with wrap-around from 3 to 0, and over any 4 consecutive
ticks each of the 4 positions is written exactly once, in fixed
round-robin order. -/
theorem digits_mux_round_robin (c : Nat) (hc : c < 4) :
    digit_counter_next c < 4 ∧ digit_counter_next c = (c + 1) % 4 ∧
    (mux_positions 4 c).Perm [0, 1, 2, 3] := by
  interval_cases c <;> exact ⟨by decide, by decide, by decide⟩

/-- Witness for C2 at counter value 2. -/
theorem digits_mux_round_robin_witness :
    (2 : Nat) < 4 ∧ digit_counter_next 2 = (2 + 1) % 4 ∧
      (mux_positions 4 2).Perm [0, 1, 2, 3] :=
  ⟨by decide, (digits_mux_round_robin 2 (by decide)).2.1,
    (digits_mux_round_robin 2 (by decide)).2.2⟩

/-- Bitmask computed by `Digits::write` (digits.cpp lines 100-136) in the
shipped configuration (`ANODES_INVERTED` defined, `NUMBERS_INVERTED` not
defined).  The `SEPARATOR_INVERTED` compile switch is kept as the
parameter `sep_inverted`; the `#ifdef`-guarded separator branch is
followed by the unconditional separator assignment exactly as in the
source.  `&= ~x` on a uint16 is modelled as `&&& (65535 ^^^ x)`. -/
def digits_write_mask (sep_inverted : Bool) (anode number : Nat) (separator : Bool) : Nat :=
  let anode_all := PINS_ANODES.foldl (fun a p => a ||| p) 0
  let anode_mask :=
    if anode < DIGITS_NUM then anode_all &&& (65535 ^^^ PINS_ANODES.getD anode 0)
    else anode_all
  let numbers_mask := if number < 10 then PINS_NUMBERS.getD number 0 else 0
  let mask := anode_mask ||| numbers_mask
  let mask :=
    if sep_inverted then
      if separator then mask &&& (65535 ^^^ PIN_SEPARATOR) else mask ||| PIN_SEPARATOR
    else mask
  if separator then mask ||| PIN_SEPARATOR else mask &&& (65535 ^^^ PIN_SEPARATOR)

/-- Spec-side truth table for C3: for position `p` the anode group is all
anode bits except position `p`'s (active-low selection), written out as
explicit constants; the groups are added, which states bit-disjointness
(no other anode or cathode bits present). -/
def anodes_except : List Nat := [0x0884, 0x2084, 0x2804, 0x2880]

/-- Spec-side mask (C3): anode group for `p`, plus the cathode bit for
`d` when `d ≤ 9` (none when `d ≥ 10`), plus the separator bit when
requested, and nothing else. -/
def digits_write_mask_spec (p d : Nat) (separator : Bool) : Nat :=
  anodes_except.getD p 0 + (if d ≤ 9 then PINS_NUMBERS.getD d 0 else 0) +
    (if separator then PIN_SEPARATOR else 0)

set_option maxRecDepth 40000 in
/-- C3.  For every position `p` in 0..3, every requested digit `d`
(a uint8) and every separator flag, the mask computed by `Digits::write`
equals the spec-side truth table: the complement-of-`p` anode group, the
cathode bit for `d` iff `d ≤ 9`, and the separator bit iff requested,
with no other bits set. -/
theorem digits_write_mask_truth_table :
    ∀ (p : Fin 4) (d : Fin 256) (s : Bool),
      digits_write_mask false p d s = digits_write_mask_spec p d s := by
  decide

set_option maxRecDepth 40000 in
/-- C10.  The separator bit of the transmitted mask always equals the
requested separator flag, with or without `SEPARATOR_INVERTED`: the
unconditional separator assignment overwrites the guarded branch, which
is dead code (the whole mask is identical in both configurations). -/
theorem digits_write_separator_overwrite :
    ∀ (inv : Bool) (p : Fin 4) (d : Fin 256) (s : Bool),
      (digits_write_mask inv p d s &&& PIN_SEPARATOR =
        if s then PIN_SEPARATOR else 0) ∧
      digits_write_mask inv p d s = digits_write_mask false p d s := by
  decide

/-! ## Boost converter (src/power.cpp, src/include/config.h)

`Power::regulate` measures the output voltage, computes a soft-started
effective setpoint, runs one PID step and writes the duty cycle. -/

/-- config.h line 52. -/
def CONVERTER_SOFT_START_TIME : Nat := 1000

def UINT64_MOD : Nat := 18446744073709551616

/-- Wrapping uint64 subtraction `a - b`, for `a b < 2^64`. -/
def sub64 (a b : Nat) : Nat := (a + UINT64_MOD - b) % UINT64_MOD

/-! ### Single-precision float arithmetic

The soft-start ramp in `Power::regulate` is computed in C `float`
(IEEE-754 binary32).  The relevant operations (division and
multiplication of exactly representable operands) are correctly rounded
to nearest, ties to even, with a 24-bit significand.  `fl32` performs
that rounding exactly over `ℚ` for positive magnitudes in
`[2^-50, 2^50)` — the entire range this firmware's ramp can produce —
and maps non-positive inputs to 0 (no negatives, subnormals or
overflow arise here). -/

/-- Round a rational to the nearest integer, ties to even. -/
def rne (q : ℚ) : ℤ :=
  if q - ⌊q⌋ < 1/2 then ⌊q⌋
  else if 1/2 < q - ⌊q⌋ then ⌊q⌋ + 1
  else if ⌊q⌋ % 2 = 0 then ⌊q⌋ else ⌊q⌋ + 1

/-- Binade search: the first exponent `e` at or after `e₀` (within the
given fuel) with `x < 2^(e+1)`. -/
def expSearch (x : ℚ) : Nat → ℤ → ℤ
  | 0, e => e
  | n + 1, e => if x < 2 ^ (e + 1) then e else expSearch x n (e + 1)

/-- IEEE-754 binary32 rounding (round to nearest, ties to even) of a
rational, exact over `ℚ`: scale into the 24-bit significand range for
the value's binade and round to an integer significand. -/
def fl32 (x : ℚ) : ℚ :=
  if x ≤ 0 then 0
  else
    let e := expSearch x 100 (-50)
    ((rne (x * 2 ^ (23 - e)) : ℤ) : ℚ) * 2 ^ (e - 23)

lemma rne_bounds (q : ℚ) : q - 1/2 ≤ ((rne q : ℤ) : ℚ) ∧ ((rne q : ℤ) : ℚ) ≤ q + 1/2 := by
  have hf1 : ((⌊q⌋ : ℤ) : ℚ) ≤ q := Int.floor_le q
  have hf2 : q < ⌊q⌋ + 1 := Int.lt_floor_add_one q
  unfold rne
  split_ifs with h1 h2 h3 <;> constructor <;> push_cast at * <;> linarith

lemma rne_ge_floor (q : ℚ) : ⌊q⌋ ≤ rne q := by
  unfold rne
  split_ifs <;> omega

lemma rne_intCast (n : ℤ) : rne ((n : ℤ) : ℚ) = n := by
  unfold rne
  rw [Int.floor_intCast]
  rw [if_pos (by norm_num : ((n : ℤ) : ℚ) - ((n : ℤ) : ℚ) < 1/2)]

/-- Concrete evaluation of `rne` when the value rounds down to `n`. -/
lemma rne_eq_of_floor (q : ℚ) (n : ℤ) (h1 : (n : ℚ) ≤ q) (h2 : q < (n : ℚ) + 1/2) :
    rne q = n := by
  have hfl : ⌊q⌋ = n := Int.floor_eq_iff.mpr ⟨h1, by linarith⟩
  unfold rne
  rw [hfl, if_pos (by linarith : q - ((n : ℤ) : ℚ) < 1/2)]

/-- The search finds the (unique) binade of `x` when it lies in range. -/
lemma expSearch_eq (x : ℚ) (e : ℤ) (hle : 2 ^ e ≤ x) (hlt : x < 2 ^ (e + 1)) :
    ∀ (n : Nat) (e₀ : ℤ), e₀ ≤ e → e < e₀ + n → expSearch x n e₀ = e := by
  intro n
  induction n with
  | zero =>
    intro e₀ h1 h2
    push_cast at h2
    omega
  | succ n ih =>
    intro e₀ h1 h2
    show (if x < 2 ^ (e₀ + 1) then e₀ else expSearch x n (e₀ + 1)) = e
    by_cases he : e₀ = e
    · rw [if_pos (he ▸ hlt)]
      exact he
    · have hlt' : ¬ (x < 2 ^ (e₀ + 1)) := by
        push_neg
        calc (2 : ℚ) ^ (e₀ + 1) ≤ 2 ^ e := zpow_le_zpow_right₀ (by norm_num) (by omega)
        _ ≤ x := hle
      rw [if_neg hlt']
      exact ih (e₀ + 1) (by omega) (by push_cast at h2 ⊢; omega)

lemma fl32_nonpos (x : ℚ) (h : x ≤ 0) : fl32 x = 0 := by
  simp only [fl32]
  rw [if_pos h]

lemma fl32_nonneg (x : ℚ) : 0 ≤ fl32 x := by
  simp only [fl32]
  split_ifs with h
  · exact le_refl 0
  · push_neg at h
    apply mul_nonneg
    · have hq : (0 : ℚ) ≤ x * 2 ^ (23 - expSearch x 100 (-50)) :=
        mul_nonneg h.le (zpow_pos (by norm_num) _).le
      have h1 : 0 ≤ ⌊x * 2 ^ (23 - expSearch x 100 (-50))⌋ := Int.floor_nonneg.mpr hq
      exact_mod_cast le_trans h1 (rne_ge_floor _)
    · exact (zpow_pos (by norm_num) _).le

/-- Unfolded form of `fl32` on a positive value with a known binade. -/
lemma fl32_of_bounds (x : ℚ) (e : ℤ) (hx : 0 < x) (h1 : 2 ^ e ≤ x) (h2 : x < 2 ^ (e + 1))
    (he1 : -50 ≤ e) (he2 : e < 50) :
    fl32 x = ((rne (x * 2 ^ (23 - e)) : ℤ) : ℚ) * 2 ^ (e - 23) := by
  simp only [fl32]
  rw [if_neg (not_le.mpr hx),
    expSearch_eq x e h1 h2 100 (-50) he1 (by push_cast; omega)]

/-- Relative rounding error of one `fl32` rounding: at most one half ulp,
i.e. within `x · 2^-24` on either side. -/
lemma fl32_err (x : ℚ) (e : ℤ) (hx : 0 < x) (h1 : 2 ^ e ≤ x) (h2 : x < 2 ^ (e + 1))
    (he1 : -50 ≤ e) (he2 : e < 50) :
    x * (1 - 2 ^ (-24 : ℤ)) ≤ fl32 x ∧ fl32 x ≤ x * (1 + 2 ^ (-24 : ℤ)) := by
  rw [fl32_of_bounds x e hx h1 h2 he1 he2]
  have hb := rne_bounds (x * 2 ^ (23 - e))
  have hppos : (0 : ℚ) < 2 ^ (e - 23) := zpow_pos (by norm_num) _
  have hid : x * 2 ^ (23 - e) * 2 ^ (e - 23) = x := by
    rw [mul_assoc, ← zpow_add₀ (by norm_num : (2 : ℚ) ≠ 0)]
    have hz : (23 : ℤ) - e + (e - 23) = 0 := by ring
    rw [hz, zpow_zero, mul_one]
  have hhalf : (1 : ℚ) / 2 * 2 ^ (e - 23) = 2 ^ e * 2 ^ (-24 : ℤ) := by
    rw [show (1 : ℚ) / 2 = 2 ^ (-1 : ℤ) by norm_num,
      ← zpow_add₀ (by norm_num : (2 : ℚ) ≠ 0), ← zpow_add₀ (by norm_num : (2 : ℚ) ≠ 0)]
    congr 1
    ring
  have hlow := mul_le_mul_of_nonneg_right hb.1 hppos.le
  have hhigh := mul_le_mul_of_nonneg_right hb.2 hppos.le
  rw [sub_mul, hid, hhalf] at hlow
  rw [add_mul, hid, hhalf] at hhigh
  have hee : (2 : ℚ) ^ e * 2 ^ (-24 : ℤ) ≤ x * 2 ^ (-24 : ℤ) :=
    mul_le_mul_of_nonneg_right h1 (zpow_pos (by norm_num : (0:ℚ) < 2) _).le
  constructor
  · rw [mul_sub, mul_one]
    linarith
  · rw [mul_add, mul_one]
    linarith

/-- `fl32` error bound without naming the binade, for values in
`[2^-49, 2^49)`. -/
lemma fl32_err_range (x : ℚ) (h1 : (2 : ℚ) ^ (-49 : ℤ) ≤ x) (h2 : x < (2 : ℚ) ^ (49 : ℤ)) :
    x * (1 - 2 ^ (-24 : ℤ)) ≤ fl32 x ∧ fl32 x ≤ x * (1 + 2 ^ (-24 : ℤ)) := by
  have hcast : ((2 : ℕ) : ℚ) = (2 : ℚ) := by norm_num
  have hx : 0 < x := lt_of_lt_of_le (zpow_pos (by norm_num : (0:ℚ) < 2) _) h1
  have hle : (2 : ℚ) ^ Int.log 2 x ≤ x := by
    have := Int.zpow_log_le_self (b := 2) (by norm_num) hx
    rwa [hcast] at this
  have hlt : x < 2 ^ (Int.log 2 x + 1) := by
    have := Int.lt_zpow_succ_log_self (b := 2) (by norm_num) x
    rwa [hcast] at this
  have he1 : (-49 : ℤ) ≤ Int.log 2 x := by
    apply (Int.zpow_le_iff_le_log (b := 2) (by norm_num) hx).mp
    rwa [hcast]
  have he2 : Int.log 2 x < 49 := by
    apply (Int.lt_zpow_iff_log_lt (b := 2) (by norm_num) hx).mp
    rwa [hcast]
  exact fl32_err x (Int.log 2 x) hx hle hlt (by omega) (by omega)

/-- `fl32` is exact on natural numbers up to `2^23` (in particular on
every uint8 setpoint). -/
lemma fl32_nat_exact (k : Nat) (h1 : 1 ≤ k) (h2 : k ≤ 8388608) : fl32 (k : ℚ) = k := by
  have hcast : ((2 : ℕ) : ℚ) = (2 : ℚ) := by norm_num
  have hk1 : (1 : ℚ) ≤ (k : ℚ) := by exact_mod_cast h1
  have hk0 : (0 : ℚ) < (k : ℚ) := by linarith
  have hk2 : (k : ℚ) ≤ 8388608 := by exact_mod_cast h2
  set e := Int.log 2 (k : ℚ) with he
  have hle : (2 : ℚ) ^ e ≤ (k : ℚ) := by
    have := Int.zpow_log_le_self (b := 2) (by norm_num) hk0
    rwa [hcast] at this
  have hlt : (k : ℚ) < 2 ^ (e + 1) := by
    have := Int.lt_zpow_succ_log_self (b := 2) (by norm_num) (k : ℚ)
    rwa [hcast] at this
  have he0 : (0 : ℤ) ≤ e := by
    apply (Int.zpow_le_iff_le_log (b := 2) (by norm_num) hk0).mp
    rw [hcast]
    norm_num
    exact h1
  have he24 : e < 24 := by
    apply (Int.lt_zpow_iff_log_lt (b := 2) (by norm_num) hk0).mp
    rw [hcast]
    have : ((2 : ℚ) ^ (24 : ℤ)) = 16777216 := by norm_num
    rw [this]
    linarith
  rw [fl32_of_bounds (k : ℚ) e hk0 hle hlt (by omega) (by omega)]
  set n := ((23 : ℤ) - e).toNat with hn
  have hn' : (23 : ℤ) - e = (n : ℤ) := by omega
  have hm : (k : ℚ) * 2 ^ ((23 : ℤ) - e) = (((k * 2 ^ n : ℕ) : ℤ) : ℚ) := by
    rw [hn', zpow_natCast]
    push_cast
    ring
  rw [hm, rne_intCast]
  push_cast
  rw [mul_assoc, ← zpow_natCast (2 : ℚ) n, ← hn',
    ← zpow_add₀ (by norm_num : (2 : ℚ) ≠ 0)]
  have hz : (23 : ℤ) - e + (e - 23) = 0 := by ring
  rw [hz, zpow_zero, mul_one]

/-- `fl32` is exact on one half (`500/1000` in the ramp). -/
lemma fl32_half : fl32 ((1 : ℚ) / 2) = 1 / 2 := by
  rw [fl32_of_bounds ((1 : ℚ) / 2) (-1) (by norm_num) (by norm_num) (by norm_num)
    (by norm_num) (by norm_num)]
  rw [show (1 : ℚ) / 2 * 2 ^ ((23 : ℤ) - (-1)) = ((8388608 : ℤ) : ℚ) by norm_num,
    rne_intCast]
  norm_num

/-- Composed relative error of the two-rounding ramp
`fl32(fl32(t/1000) · s)`: within one half of the exact scaled value. -/
lemma float_ramp_close (t s : Nat) (ht1 : 1 ≤ t) (ht2 : t ≤ 1000)
    (hs1 : 1 ≤ s) (hs2 : s ≤ 255) :
    (t : ℚ) / 1000 * s - 1 / 2 ≤ fl32 (fl32 ((t : ℚ) / 1000) * s) ∧
      fl32 (fl32 ((t : ℚ) / 1000) * s) ≤ (t : ℚ) / 1000 * s + 1 / 2 := by
  have hu : (2 : ℚ) ^ (-24 : ℤ) = 1 / 16777216 := by norm_num
  have h49 : (2 : ℚ) ^ (-49 : ℤ) = 1 / 562949953421312 := by norm_num
  have h49' : (2 : ℚ) ^ (49 : ℤ) = 562949953421312 := by norm_num
  have ht1' : (1 : ℚ) ≤ (t : ℚ) := by exact_mod_cast ht1
  have ht2' : (t : ℚ) ≤ 1000 := by exact_mod_cast ht2
  have hs1' : (1 : ℚ) ≤ (s : ℚ) := by exact_mod_cast hs1
  have hs2' : (s : ℚ) ≤ 255 := by exact_mod_cast hs2
  have hx1 : (1 : ℚ) / 1000 ≤ (t : ℚ) / 1000 := by linarith
  have hx2 : (t : ℚ) / 1000 ≤ 1 := by linarith
  have hy := fl32_err_range ((t : ℚ) / 1000) (by rw [h49]; linarith) (by rw [h49']; linarith)
  rw [hu] at hy
  have hys1 : (t : ℚ) / 1000 * (1 - 1 / 16777216) * s ≤ fl32 ((t : ℚ) / 1000) * s :=
    mul_le_mul_of_nonneg_right hy.1 (by linarith)
  have hys2 : fl32 ((t : ℚ) / 1000) * s ≤ (t : ℚ) / 1000 * (1 + 1 / 16777216) * s :=
    mul_le_mul_of_nonneg_right hy.2 (by linarith)
  have hwlo : (2 : ℚ) ^ (-49 : ℤ) ≤ fl32 ((t : ℚ) / 1000) * s := by
    rw [h49]
    have e1 : (1 : ℚ) / 1000 * (1 - 1 / 16777216) ≤ (t : ℚ) / 1000 * (1 - 1 / 16777216) :=
      mul_le_mul_of_nonneg_right hx1 (by norm_num)
    have e0 : (0 : ℚ) ≤ (t : ℚ) / 1000 * (1 - 1 / 16777216) := by nlinarith
    have e2 : (t : ℚ) / 1000 * (1 - 1 / 16777216) * 1 ≤
        (t : ℚ) / 1000 * (1 - 1 / 16777216) * s :=
      mul_le_mul_of_nonneg_left hs1' e0
    nlinarith
  have hwhi : fl32 ((t : ℚ) / 1000) * s < (2 : ℚ) ^ (49 : ℤ) := by
    rw [h49']
    have e1 : (t : ℚ) / 1000 * (1 + 1 / 16777216) ≤ 1 * (1 + 1 / 16777216) :=
      mul_le_mul_of_nonneg_right hx2 (by norm_num)
    have e2 : (t : ℚ) / 1000 * (1 + 1 / 16777216) * s ≤ 1 * (1 + 1 / 16777216) * 255 := by
      apply mul_le_mul e1 hs2' (by linarith) (by norm_num)
    nlinarith
  have hz := fl32_err_range (fl32 ((t : ℚ) / 1000) * s) hwlo hwhi
  rw [hu] at hz
  have hE1 : (t : ℚ) / 1000 * s ≤ 255 := by nlinarith
  have hE0 : (0 : ℚ) ≤ (t : ℚ) / 1000 * s := by positivity
  constructor
  · have c2 : (t : ℚ) / 1000 * (1 - 1 / 16777216) * s * (1 - 1 / 16777216) ≤
        fl32 ((t : ℚ) / 1000) * s * (1 - 1 / 16777216) :=
      mul_le_mul_of_nonneg_right hys1 (by norm_num)
    nlinarith
  · have c2 : fl32 ((t : ℚ) / 1000) * s * (1 + 1 / 16777216) ≤
        (t : ℚ) / 1000 * (1 + 1 / 16777216) * s * (1 + 1 / 16777216) :=
      mul_le_mul_of_nonneg_right hys2 (by norm_num)
    nlinarith

/-- Timestamp and soft-start part of `Power::regulate` (power.cpp lines
112-122): record the start time on the first call (`time_started == 0`),
then ramp the effective setpoint linearly to `setpoint` over
`CONVERTER_SOFT_START_TIME` ms.  Returns the updated `time_started`
together with the uint8 `setpoint_temp`.  The float expression
`(float)(elapsed) / (float)1000 * setpoint` is two binary32 roundings:
in the ramp branch `elapsed ≤ 1000`, so `(float)elapsed` and
`(float)1000` are exact and the division is one correctly-rounded
operation `fl32 (elapsed / 1000)`; the multiplication by the exactly
representable uint8 `setpoint` is the second, `fl32 (· * setpoint)`.
The store into the uint8 `setpoint_temp` truncates (`Nat.floor`, mod 256
as a uint8 store).  There is no wrapped-clock resynchronization in this
function: the uint64 difference `millis_current - time_started` is taken
as is (`sub64`). -/
def regulate_soft_start (now time_started setpoint : Nat) : Nat × Nat :=
  let ts := if time_started = 0 then now else time_started
  let elapsed := sub64 now ts
  (ts,
    if elapsed > CONVERTER_SOFT_START_TIME then setpoint
    else (Nat.floor (fl32 (fl32 ((elapsed : ℚ) / 1000) * setpoint))) % 256)

/-- Truncating the exact rational ramp is natural-number division. -/
lemma ramp_floor (t s : Nat) : Nat.floor ((t : ℚ) / 1000 * s) = t * s / 1000 := by
  have h : (t : ℚ) / 1000 * s = ((t * s : Nat) : ℚ) / ((1000 : Nat) : ℚ) := by
    push_cast; ring
  rw [h, Nat.floor_div_nat, Nat.floor_natCast]

/-- Counterexample to C4 as stated: at elapsed time 650 ms with target
180 the exact scaled value `650/1000 · 180` is the integer 117, but the
firmware's single-precision evaluation
`fl32(fl32(650/1000) · 180) = 15335423/2^17 ≈ 116.99999237` truncates
to 116 in the uint8 store — one below the claim's value. -/
theorem power_soft_start_float_counterexample :
    (regulate_soft_start 5650 5000 180).2 = 116 ∧
      (650 : ℚ) / 1000 * 180 = 117 ∧ (116 : ℕ) ≠ 117 := by
  refine ⟨?_, by norm_num, by norm_num⟩
  have hsub : sub64 5650 5000 = 650 := by norm_num [sub64, UINT64_MOD]
  simp only [regulate_soft_start, CONVERTER_SOFT_START_TIME]
  rw [if_neg (by norm_num : ¬ (5000 = 0)), hsub,
    if_neg (by norm_num : ¬ (650 > 1000))]
  have e1 : ((650 : ℕ) : ℚ) / 1000 = 13 / 20 := by norm_num
  have e2 : fl32 ((13 : ℚ) / 20) = 5452595 / 8388608 := by
    rw [fl32_of_bounds ((13 : ℚ) / 20) (-1) (by norm_num) (by norm_num) (by norm_num)
      (by norm_num) (by norm_num)]
    rw [show (13 : ℚ) / 20 * 2 ^ ((23 : ℤ) - (-1)) = 54525952 / 5 by norm_num]
    rw [rne_eq_of_floor (54525952 / 5) 10905190 (by norm_num) (by norm_num)]
    norm_num
  have e3 : (5452595 : ℚ) / 8388608 * ((180 : ℕ) : ℚ) = 245366775 / 2097152 := by
    push_cast
    norm_num
  have e4 : fl32 ((245366775 : ℚ) / 2097152) = 15335423 / 131072 := by
    rw [fl32_of_bounds ((245366775 : ℚ) / 2097152) 6 (by norm_num) (by norm_num)
      (by norm_num) (by norm_num) (by norm_num)]
    rw [show (245366775 : ℚ) / 2097152 * 2 ^ ((23 : ℤ) - 6) = 245366775 / 16 by norm_num]
    rw [rne_eq_of_floor (245366775 / 16) 15335423 (by norm_num) (by norm_num)]
    norm_num
  rw [e1, e2, e3, e4]
  have e5 : Nat.floor ((15335423 : ℚ) / 131072) = 116 := by
    rw [Nat.floor_eq_iff (by norm_num)]
    norm_num
  rw [e5]

/-- C4 amended: the effective setpoint is the single-precision
evaluation of elapsed/1000 scaled by the target, truncated to the uint8
store, which stays within one unit of the exactly scaled
`⌊t·target/1000⌋` for every t ≤ 1000; it is exactly 0 at t = 0, exactly
90 at t = 500 with target 180 (the float arithmetic is exact there), and
exactly the target for every t ≥ 1000. -/
theorem power_soft_start_ramp (now time_started setpoint : Nat)
    (hts : 0 < time_started) (hle : time_started ≤ now) (hnow : now < UINT64_MOD)
    (hsp : setpoint ≤ 255) :
    (regulate_soft_start now time_started setpoint).1 = time_started ∧
    (now - time_started ≤ 1000 →
      (regulate_soft_start now time_started setpoint).2 ≤
          (now - time_started) * setpoint / 1000 + 1 ∧
        (now - time_started) * setpoint / 1000 ≤
          (regulate_soft_start now time_started setpoint).2 + 1) ∧
    (now = time_started → (regulate_soft_start now time_started setpoint).2 = 0) ∧
    (now - time_started = 500 → setpoint = 180 →
      (regulate_soft_start now time_started setpoint).2 = 90) ∧
    (1000 ≤ now - time_started →
      (regulate_soft_start now time_started setpoint).2 = setpoint) := by
  have hts' : ¬ time_started = 0 := by omega
  have hnow' : now < 18446744073709551616 := hnow
  have hsub : sub64 now time_started = now - time_started := by
    simp only [sub64, UINT64_MOD]
    omega
  refine ⟨?_, ?_, ?_, ?_, ?_⟩
  · simp [regulate_soft_start, if_neg hts']
  · intro h
    simp only [regulate_soft_start, if_neg hts', hsub, CONVERTER_SOFT_START_TIME]
    split_ifs with hc
    · omega
    · set t := now - time_started with htdef
      rcases Nat.eq_zero_or_pos t with ht0 | ht0
      · rw [ht0]
        have hz : fl32 (fl32 (((0 : ℕ) : ℚ) / 1000) * (setpoint : ℚ)) = 0 := by
          rw [show (((0 : ℕ) : ℚ)) / 1000 = 0 by norm_num, fl32_nonpos 0 le_rfl,
            zero_mul, fl32_nonpos 0 le_rfl]
        rw [hz]
        simp
      rcases Nat.eq_zero_or_pos setpoint with hs0 | hs0
      · rw [hs0]
        have hz : fl32 (fl32 ((t : ℚ) / 1000) * ((0 : ℕ) : ℚ)) = 0 := by
          rw [show ((0 : ℕ) : ℚ) = 0 by norm_num, mul_zero, fl32_nonpos 0 le_rfl]
        rw [hz]
        simp
      · have hclose := float_ramp_close t setpoint ht0 h hs0 hsp
        set z := fl32 (fl32 ((t : ℚ) / 1000) * (setpoint : ℚ)) with hzdef
        have hz0 : 0 ≤ z := fl32_nonneg _
        have hN := ramp_floor t setpoint
        set N := t * setpoint / 1000 with hNdef
        have hNle : (N : ℚ) ≤ (t : ℚ) / 1000 * setpoint := by
          rw [← hN]
          exact Nat.floor_le (by positivity)
        have hNlt : (t : ℚ) / 1000 * setpoint < (N : ℚ) + 1 := by
          rw [← hN]
          exact Nat.lt_floor_add_one _
        have hE255 : (t : ℚ) / 1000 * setpoint ≤ 255 := by
          have ht' : (t : ℚ) ≤ 1000 := by exact_mod_cast h
          have hs' : (setpoint : ℚ) ≤ 255 := by exact_mod_cast hsp
          have hs0' : (0 : ℚ) ≤ (setpoint : ℚ) := Nat.cast_nonneg _
          nlinarith
        have hfloorle : ((Nat.floor z : ℕ) : ℚ) ≤ z := Nat.floor_le hz0
        have hfloorgt : z < ((Nat.floor z : ℕ) : ℚ) + 1 := Nat.lt_floor_add_one z
        have hv255 : Nat.floor z < 256 := by
          have hzlt : z < (256 : ℚ) := by linarith [hclose.2]
          exact_mod_cast (Nat.floor_lt hz0).mpr (by exact_mod_cast hzlt)
        rw [Nat.mod_eq_of_lt hv255]
        constructor
        · have hq : ((Nat.floor z : ℕ) : ℚ) < ((N + 2 : ℕ) : ℚ) := by
            push_cast
            linarith [hclose.2]
          have := Nat.cast_lt.mp hq
          omega
        · have hq : ((N : ℕ) : ℚ) < ((Nat.floor z + 2 : ℕ) : ℚ) := by
            push_cast
            linarith [hclose.1]
          have := Nat.cast_lt.mp hq
          omega
  · intro h0
    simp only [regulate_soft_start, if_neg hts', hsub, CONVERTER_SOFT_START_TIME]
    rw [show now - time_started = 0 from by omega]
    rw [if_neg (by norm_num : ¬ ((0 : ℕ) > 1000))]
    have hz : fl32 (fl32 (((0 : ℕ) : ℚ) / 1000) * (setpoint : ℚ)) = 0 := by
      rw [show (((0 : ℕ) : ℚ)) / 1000 = 0 by norm_num, fl32_nonpos 0 le_rfl,
        zero_mul, fl32_nonpos 0 le_rfl]
    rw [hz]
    simp
  · intro h5 h180
    subst h180
    simp only [regulate_soft_start, if_neg hts', hsub, CONVERTER_SOFT_START_TIME]
    rw [h5, if_neg (by norm_num : ¬ ((500 : ℕ) > 1000))]
    have hc1 : ((500 : ℕ) : ℚ) / 1000 = 1 / 2 := by norm_num
    rw [hc1, fl32_half]
    have h90 : fl32 ((1 : ℚ) / 2 * ((180 : ℕ) : ℚ)) = ((90 : ℕ) : ℚ) := by
      rw [show (1 : ℚ) / 2 * ((180 : ℕ) : ℚ) = ((90 : ℕ) : ℚ) by push_cast; ring]
      exact fl32_nat_exact 90 (by norm_num) (by norm_num)
    rw [h90, Nat.floor_natCast]
  · intro h1000
    simp only [regulate_soft_start, if_neg hts', hsub, CONVERTER_SOFT_START_TIME]
    split_ifs with hc
    · rfl
    · have he : now - time_started = 1000 := by omega
      rw [he]
      have hc1 : ((1000 : ℕ) : ℚ) / 1000 = 1 := by norm_num
      rw [hc1]
      have hone : fl32 (1 : ℚ) = 1 := by
        have := fl32_nat_exact 1 (by norm_num) (by norm_num)
        simpa using this
      rw [hone, one_mul]
      rcases Nat.eq_zero_or_pos setpoint with hs0 | hs0
      · rw [hs0]
        rw [show ((0 : ℕ) : ℚ) = 0 by norm_num, fl32_nonpos 0 le_rfl]
        simp
      · rw [fl32_nat_exact setpoint hs0 (by omega), Nat.floor_natCast,
          Nat.mod_eq_of_lt (by omega)]

/-- Witness for C4 (amended): elapsed 500 with target 180 gives exactly
90, elapsed 1500 gives exactly 180, and at elapsed 650 the stored value
is within one of the exactly scaled 117. -/
theorem power_soft_start_ramp_witness :
    (regulate_soft_start 1000 500 180).2 = 90 ∧
      (regulate_soft_start 2000 500 180).2 = 180 ∧
      (regulate_soft_start 1150 500 180).2 ≤ (1150 - 500) * 180 / 1000 + 1 ∧
      (1150 - 500) * 180 / 1000 ≤ (regulate_soft_start 1150 500 180).2 + 1 := by
  refine ⟨?_, ?_, ?_, ?_⟩
  · exact (power_soft_start_ramp 1000 500 180 (by norm_num) (by norm_num)
      (by norm_num [UINT64_MOD]) (by norm_num)).2.2.2.1 (by norm_num) rfl
  · exact (power_soft_start_ramp 2000 500 180 (by norm_num) (by norm_num)
      (by norm_num [UINT64_MOD]) (by norm_num)).2.2.2.2 (by norm_num)
  · exact ((power_soft_start_ramp 1150 500 180 (by norm_num) (by norm_num)
      (by norm_num [UINT64_MOD]) (by norm_num)).2.1 (by norm_num)).1
  · exact ((power_soft_start_ramp 1150 500 180 (by norm_num) (by norm_num)
      (by norm_num [UINT64_MOD]) (by norm_num)).2.1 (by norm_num)).2

/-! ### PID clamping (modelled from the spec)

Modelled from the spec: the PID implementation `PetalPID` is vendored at
lib/PetalPID in the repository and is not under src/ (power.cpp only
constructs and calls it).  Spec §4.3: one PID step has its "output
clamped to [min,max] and integral term independently clamped to prevent
windup"; power.cpp lines 44-45 configure gains `(85, 11.4, 0)`, output
range `[PID_MIN_OUT, PID_MAX_OUT] = [0, 512]` and integral range
`[PID_MIN_INTEGRAL, PID_MAX_INTEGRAL] = [-1000, 1000]` (config.h lines
75-86). -/

structure PetalPID where
  p_gain : ℚ
  i_gain : ℚ
  d_gain : ℚ
  min_out : ℚ
  max_out : ℚ
  min_integral : ℚ
  max_integral : ℚ
  integral : ℚ
  error_prev : ℚ

/-- Clamp `x` into `[lo, hi]`. -/
def clampQ (lo hi x : ℚ) : ℚ := min hi (max lo x)

/-- Modelled from the spec: one `PetalPID::calculate` step — accumulate
the integral and clamp it to its own band, then form the PID sum and
clamp it to the output band.  `dt` is the elapsed-time factor of the
integral accumulation. -/
def PetalPID.calculate (pid : PetalPID) (input setpoint dt : ℚ) : PetalPID × ℚ :=
  let error := setpoint - input
  let integral := clampQ pid.min_integral pid.max_integral
    (pid.integral + pid.i_gain * error * dt)
  let out := clampQ pid.min_out pid.max_out
    (pid.p_gain * error + integral + pid.d_gain * (error - pid.error_prev))
  ({ pid with integral := integral, error_prev := error }, out)

/-- The PID instance built by `Power::init` (power.cpp lines 44-45 with
the config.h constants); the global object starts zero-initialized. -/
def power_pid_init : PetalPID :=
  { p_gain := 85, i_gain := 57 / 5, d_gain := 0, min_out := 0, max_out := 512,
    min_integral := -1000, max_integral := 1000, integral := 0, error_prev := 0 }

/-- A run of `regulate()` PID steps over a list of (measured voltage,
effective setpoint, time factor) samples, collecting each step's state
and output. -/
def regulate_run (pid : PetalPID) : List (ℚ × ℚ × ℚ) → List (PetalPID × ℚ)
  | [] => []
  | (v, sp, dt) :: rest =>
    let r := pid.calculate v sp dt
    r :: regulate_run r.1 rest

lemma clampQ_mem (lo hi x : ℚ) (h : lo ≤ hi) :
    lo ≤ clampQ lo hi x ∧ clampQ lo hi x ≤ hi :=
  ⟨le_min h (le_max_left lo x), min_le_left hi _⟩

/-- The configuration fields are untouched by a PID step. -/
lemma calculate_config (pid : PetalPID) (v sp dt : ℚ) :
    (pid.calculate v sp dt).1.min_out = pid.min_out ∧
    (pid.calculate v sp dt).1.max_out = pid.max_out ∧
    (pid.calculate v sp dt).1.min_integral = pid.min_integral ∧
    (pid.calculate v sp dt).1.max_integral = pid.max_integral :=
  ⟨rfl, rfl, rfl, rfl⟩

/-- The integral state after a step, unfolded. -/
lemma calculate_integral (pid : PetalPID) (v sp dt : ℚ) :
    (pid.calculate v sp dt).1.integral =
      clampQ pid.min_integral pid.max_integral
        (pid.integral + pid.i_gain * (sp - v) * dt) := rfl

/-- The output of a step, unfolded. -/
lemma calculate_out (pid : PetalPID) (v sp dt : ℚ) :
    (pid.calculate v sp dt).2 =
      clampQ pid.min_out pid.max_out
        (pid.p_gain * (sp - v) +
          clampQ pid.min_integral pid.max_integral
            (pid.integral + pid.i_gain * (sp - v) * dt) +
          pid.d_gain * ((sp - v) - pid.error_prev)) := rfl

lemma regulate_run_clamped (samples : List (ℚ × ℚ × ℚ)) :
    ∀ (pid : PetalPID), pid.min_out = 0 → pid.max_out = 512 →
      pid.min_integral = -1000 → pid.max_integral = 1000 →
      ∀ p ∈ regulate_run pid samples,
        0 ≤ p.2 ∧ p.2 ≤ 512 ∧ -1000 ≤ p.1.integral ∧ p.1.integral ≤ 1000 := by
  induction samples with
  | nil => intro pid _ _ _ _ p hp; simp [regulate_run] at hp
  | cons sample rest ih =>
    intro pid h1 h2 h3 h4 p hp
    obtain ⟨v, sp, dt⟩ := sample
    simp only [regulate_run, List.mem_cons] at hp
    rcases hp with hp | hp
    · subst hp
      rw [calculate_out, calculate_integral, h1, h2, h3, h4]
      refine ⟨?_, ?_, ?_, ?_⟩
      · exact (clampQ_mem _ _ _ (by norm_num)).1
      · exact (clampQ_mem _ _ _ (by norm_num)).2
      · exact (clampQ_mem _ _ _ (by norm_num)).1
      · exact (clampQ_mem _ _ _ (by norm_num)).2
    · exact ih (pid.calculate v sp dt).1
        ((calculate_config pid v sp dt).1.trans h1)
        ((calculate_config pid v sp dt).2.1.trans h2)
        ((calculate_config pid v sp dt).2.2.1.trans h3)
        ((calculate_config pid v sp dt).2.2.2.trans h4)
        p hp

/-- C5.  Over every sequence of `regulate()` calls starting from the
configured controller, every PID output handed to `set_duty_cycle` lies
in `[PID_MIN_OUT, PID_MAX_OUT] = [0, 512]` whatever the measured
voltages, and the integral term stays inside its independent clamp band
`[PID_MIN_INTEGRAL, PID_MAX_INTEGRAL] = [-1000, 1000]`. -/
theorem power_pid_clamped (samples : List (ℚ × ℚ × ℚ)) (p : PetalPID × ℚ)
    (hp : p ∈ regulate_run power_pid_init samples) :
    0 ≤ p.2 ∧ p.2 ≤ 512 ∧ -1000 ≤ p.1.integral ∧ p.1.integral ≤ 1000 :=
  regulate_run_clamped samples power_pid_init rfl rfl rfl rfl p hp

/-- Concrete PID step used in the C5 witness: zero measured voltage,
setpoint 180, unit time factor; the raw integral increment 11.4·180
exceeds the band and the raw output exceeds 512, so both clamps engage. -/
def pid_after_one : PetalPID × ℚ := power_pid_init.calculate 0 180 1

/-- Witness for C5 at one concrete sample. -/
theorem power_pid_clamped_witness :
    0 ≤ pid_after_one.2 ∧ pid_after_one.2 ≤ 512 ∧
      -1000 ≤ pid_after_one.1.integral ∧ pid_after_one.1.integral ≤ 1000 :=
  power_pid_clamped [(0, 180, 1)] pid_after_one
    (by rw [show regulate_run power_pid_init [(0, 180, 1)] = [pid_after_one] from rfl]
        exact List.mem_singleton.mpr rfl)

/-! ## Tone engine (src/buzzer.cpp, src/include/config.h) -/

/-- config.h line 147. -/
def DECAY_TIME : Nat := 400

/-- config.h line 139. -/
def BUZZER_PWM_START : Nat := 50

/-- config.h line 144. -/
def BUZZER_PWM_DEVIATION : Nat := 40

/-- config.h lines 161-163 (D minor scale; 0 entries are rests). -/
def ALARM_CHIME_NOTES : List Nat :=
  [0, 0, 62, 65, 69, 62, 65, 69, 86, 88, 89, 91, 93, 94, 96, 98]

def ALARM_CHIME_NOTES_N : Nat := 16

/-- config.h line 153 (weighted table of note-duration dividers). -/
def NOTE_DURATION_DIVIDERS : List Nat := [1, 2, 2, 2, 4, 8]

def NOTE_DURATION_DIVIDERS_N : Nat := 6

/-- Arduino `map(x, in_min, in_max, out_min, out_max)` on `long`
(C++ signed division truncates toward zero: `Int.tdiv`). -/
def arduino_map (x in_min in_max out_min out_max : Int) : Int :=
  Int.tdiv ((x - in_min) * (out_max - out_min)) (in_max - in_min) + out_min

/-- Specialized to the call in `Buzzer::decay` (buzzer.cpp line 120),
the map is the truncating linear ramp from `a` down to 0. -/
lemma arduino_map_decay (x a : Nat) :
    (arduino_map x 0 (DECAY_TIME : Nat) a 0).toNat = a - x * a / 400 := by
  have hA : ((x : Int) - 0) * ((0 : Int) - (a : Int)) = -((x * a : Nat) : Int) := by
    push_cast; ring
  have hB : ((DECAY_TIME : Nat) : Int) - 0 = ((400 : Nat) : Int) := by
    norm_num [DECAY_TIME]
  unfold arduino_map
  rw [hA, hB, Int.neg_tdiv, ← Int.ofNat_tdiv]
  omega

/-- Mutable state of the `Buzzer` singleton (buzzer.h lines 52-55), with
`set_duty_cycle`'s uint8 argument recorded in `duty`, `set_frequency`
abstracted to recording the note whose frequency was last programmed
(`freq_note`), and ghost counters `notes_played`, `divider_draws`,
`rand_used` instrumenting note emissions, divider draws and `random()`
calls of the chime sequencer.  The global object is zero-initialized. -/
structure BuzzerState where
  decay_timer : Nat := 0
  chime_timer : Nat := 0
  chime_note_duration : Nat := 0
  attack_pwm_value : Nat := 0
  note_last : Nat := 0
  note_duration_divider : Nat := 0
  note_counter : Nat := 0
  duty : Nat := 0
  freq_note : Nat := 0
  notes_played : Nat := 0
  divider_draws : Nat := 0
  rand_used : Nat := 0
deriving DecidableEq

/-- Zero-initialized `Buzzer` globals. -/
def buzzer_init : BuzzerState := {}

/-- `Buzzer::play_note` (buzzer.cpp lines 63-72): reprogram the PWM
frequency only when the note changed and is nonzero, set the attack
duty (0 when the note is 0), and reset the decay timer to now. -/
def play_note (now : Nat) (note_number pwm : Nat) (s : BuzzerState) : BuzzerState :=
  let s1 :=
    if note_number ≠ s.note_last then
      let s0 := if note_number ≠ 0 then { s with freq_note := note_number } else s
      { s0 with note_last := note_number }
    else s
  let attack := if note_number ≠ 0 then pwm % 256 else 0
  { s1 with attack_pwm_value := attack, duty := attack, decay_timer := now }

/-- `Buzzer::decay` (buzzer.cpp lines 107-123): resynchronize the decay
timer on clock wrap, force duty 0 and disarm (timer 0) once `DECAY_TIME`
has elapsed, otherwise ramp the duty linearly down from the attack
value. -/
def decay (now : Nat) (s : BuzzerState) : BuzzerState :=
  let s := if s.decay_timer > now then { s with decay_timer := now } else s
  if s.decay_timer ≠ 0 ∧ now - s.decay_timer ≥ DECAY_TIME then
    { s with decay_timer := 0, duty := 0 }
  else if now - s.decay_timer < DECAY_TIME then
    { s with duty :=
        (arduino_map ((now - s.decay_timer : Nat) : Int) 0 (DECAY_TIME : Nat)
          s.attack_pwm_value 0).toNat % 256 }
  else s

/-- Random velocity of a chime note (buzzer.cpp lines 84-85).  `%` and
`*` have equal precedence in C and associate left, so the expression is
`BUZZER_PWM_START + ((r % BUZZER_PWM_DEVIATION) * 2 - BUZZER_PWM_DEVIATION / 2)`
in int16, stored into the uint8 `attack_pwm_value`. -/
def chime_velocity (r : Nat) : Nat :=
  (((BUZZER_PWM_START : Int) +
      ((r % BUZZER_PWM_DEVIATION : Nat) * 2 - (BUZZER_PWM_DEVIATION / 2 : Nat) : Int)).toNat) % 256

/-- `Buzzer::play_chime` (buzzer.cpp lines 74-101): resynchronize the
chime timer on clock wrap; when the current note duration has elapsed,
emit a random note with random velocity, bump the note counter, and once
the counter exceeds the current divider draw a new divider from the
weighted table and recompute the note duration.  `random()` is the
oracle `rng`, indexed by the running call count.  The float
`60000.f / ALARM_CHIME_BPM / (float) divider` stored into the uint16
`chime_note_duration` truncates to 666, 333, 166, 83 for the dividers
1, 2, 4, 8 — the same values as the all-natural `60000 / 90 / divider`
used here. -/
def play_chime (rng : Nat → Nat) (now : Nat) (s : BuzzerState) : BuzzerState :=
  let s := if s.chime_timer > now then { s with chime_timer := now } else s
  if now - s.chime_timer ≥ s.chime_note_duration then
    let vel := chime_velocity (rng s.rand_used)
    let note := ALARM_CHIME_NOTES.getD (rng (s.rand_used + 1) % ALARM_CHIME_NOTES_N) 0
    let s := { s with chime_timer := now, attack_pwm_value := vel,
                      rand_used := s.rand_used + 2, notes_played := s.notes_played + 1 }
    let s := play_note now note vel s
    let s := { s with note_counter := (s.note_counter + 1) % 256 }
    if s.note_counter > s.note_duration_divider then
      let d := NOTE_DURATION_DIVIDERS.getD
        (rng s.rand_used % NOTE_DURATION_DIVIDERS_N) 0
      { s with note_duration_divider := d,
               chime_note_duration := 60000 / 90 / d,
               note_counter := 0,
               rand_used := s.rand_used + 1,
               divider_draws := s.divider_draws + 1 }
    else s
  else s

/-- `play_note` leaves the chime sequencing state untouched. -/
lemma play_note_preserves (now n v : Nat) (s : BuzzerState) :
    (play_note now n v s).note_counter = s.note_counter ∧
    (play_note now n v s).note_duration_divider = s.note_duration_divider ∧
    (play_note now n v s).divider_draws = s.divider_draws ∧
    (play_note now n v s).notes_played = s.notes_played ∧
    (play_note now n v s).rand_used = s.rand_used ∧
    (play_note now n v s).chime_timer = s.chime_timer ∧
    (play_note now n v s).chime_note_duration = s.chime_note_duration := by
  unfold play_note
  by_cases h1 : n ≠ s.note_last <;> by_cases h2 : n ≠ 0 <;> simp [h1, h2]

/-- C9.  `play_note(n, v)` reprograms the PWM frequency registers only
when `n` differs from the previously played note and is nonzero; `n = 0`
forces the duty cycle to 0 with no frequency change, a nonzero `n` sets
the duty cycle to `v` (a uint8), and in every case the decay start
timestamp is reset to the current time. -/
theorem buzzer_play_note_frame (now n v : Nat) (s : BuzzerState) :
    (n = 0 → (play_note now n v s).freq_note = s.freq_note ∧
      (play_note now n v s).duty = 0) ∧
    (n = s.note_last → (play_note now n v s).freq_note = s.freq_note) ∧
    (n ≠ 0 → (play_note now n v s).duty = v % 256) ∧
    (n ≠ 0 → n ≠ s.note_last → (play_note now n v s).freq_note = n) ∧
    (play_note now n v s).decay_timer = now := by
  unfold play_note
  by_cases h1 : n ≠ s.note_last <;> by_cases h2 : n ≠ 0 <;> simp [h1, h2]

/-- Witness for C9: silence keeps the programmed frequency and zeroes
the duty; a fresh nonzero note programs its frequency and duty. -/
theorem buzzer_play_note_frame_witness :
    (play_note 7 0 99 buzzer_init).duty = 0 ∧
      (play_note 7 5 99 buzzer_init).duty = 99 % 256 ∧
      (play_note 7 5 99 buzzer_init).freq_note = 5 := by
  refine ⟨((buzzer_play_note_frame 7 0 99 buzzer_init).1 rfl).2, ?_, ?_⟩
  · exact (buzzer_play_note_frame 7 5 99 buzzer_init).2.2.1 (by decide)
  · exact (buzzer_play_note_frame 7 5 99 buzzer_init).2.2.2.1 (by decide) (by decide)

/-- Counterexample to C6 as stated: a note started exactly at clock time
0 makes `play_note` store `decay_timer = millis() = 0`, which is also
the disarmed sentinel, so the forced-zero branch of `decay()` never
fires for it: 400 ms after `play_note(69, 100)` the duty cycle is still
100 where the claim requires 0. -/
theorem buzzer_decay_zero_start_counterexample :
    (decay 400 (play_note 0 69 100 buzzer_init)).duty = 100 ∧
      400 - (play_note 0 69 100 buzzer_init).decay_timer ≥ DECAY_TIME := by
  decide

/-- C6 amended: provided the note starts at a nonzero clock time (so the
decay timer is not the disarmed sentinel 0), every `decay()` call `t` ms
after the note start ramps the duty linearly from the attack value down
to 0 while `t < 400`, forces duty 0 and disarms at `t ≥ 400`, and a
disarmed state at any time ≥ 400 ms (as all times after a completed
decay are) is left completely unchanged, so the duty stays 0 until the
next `play_note`. -/
theorem buzzer_decay_ramp (s : BuzzerState) (t : Nat)
    (hT : 0 < s.decay_timer) (ha : s.attack_pwm_value ≤ 255) :
    (t < 400 →
      decay (s.decay_timer + t) s =
        { s with duty :=
            s.attack_pwm_value - t * s.attack_pwm_value / 400 }) ∧
    (400 ≤ t →
      decay (s.decay_timer + t) s = { s with decay_timer := 0, duty := 0 }) ∧
    (∀ now, 400 ≤ now → ∀ s2 : BuzzerState, s2.decay_timer = 0 →
      decay now s2 = s2) := by
  have hd : DECAY_TIME = 400 := rfl
  have hre : ¬ (s.decay_timer > s.decay_timer + t) := by omega
  refine ⟨?_, ?_, ?_⟩
  · intro ht
    simp only [decay]
    rw [if_neg hre]
    rw [if_neg (by omega :
      ¬ (s.decay_timer ≠ 0 ∧ s.decay_timer + t - s.decay_timer ≥ DECAY_TIME))]
    rw [if_pos (by omega : s.decay_timer + t - s.decay_timer < DECAY_TIME)]
    have harg : s.decay_timer + t - s.decay_timer = t := by omega
    rw [harg, arduino_map_decay]
    have hlt : s.attack_pwm_value - t * s.attack_pwm_value / 400 < 256 := by omega
    rw [Nat.mod_eq_of_lt hlt]
  · intro ht
    simp only [decay]
    rw [if_neg hre]
    have hcond : s.decay_timer ≠ 0 ∧
        s.decay_timer + t - s.decay_timer ≥ DECAY_TIME := ⟨by omega, by omega⟩
    rw [if_pos hcond]
  · intro now hnow s2 h0
    simp only [decay]
    rw [if_neg (by omega : ¬ (s2.decay_timer > now))]
    rw [if_neg (by omega : ¬ (s2.decay_timer ≠ 0 ∧ now - s2.decay_timer ≥ DECAY_TIME))]
    rw [if_neg (by omega : ¬ (now - s2.decay_timer < DECAY_TIME))]

/-- Witness for C6 (amended): `play_note(69, 100)` at time 1000, then
`decay()` at elapsed 200 gives duty 50 and at elapsed 400 forces 0 and
disarms; a later call at time 1401 changes nothing. -/
theorem buzzer_decay_ramp_witness :
    (decay 1200 (play_note 1000 69 100 buzzer_init)).duty = 50 ∧
      decay 1400 (play_note 1000 69 100 buzzer_init) =
        { play_note 1000 69 100 buzzer_init with decay_timer := 0, duty := 0 } ∧
      decay 1401 { play_note 1000 69 100 buzzer_init with
        decay_timer := 0, duty := 0 } =
        { play_note 1000 69 100 buzzer_init with decay_timer := 0, duty := 0 } := by
  refine ⟨?_, ?_, ?_⟩
  · have h := (buzzer_decay_ramp (play_note 1000 69 100 buzzer_init) 200
      (by decide) (by decide)).1 (by decide)
    rw [show (1200 : Nat) =
      (play_note 1000 69 100 buzzer_init).decay_timer + 200 from by decide, h]
    decide
  · exact (buzzer_decay_ramp (play_note 1000 69 100 buzzer_init) 400
      (by decide) (by decide)).2.1 (by decide)
  · exact (buzzer_decay_ramp (play_note 1000 69 100 buzzer_init) 400
      (by decide) (by decide)).2.2 1401 (by decide) _ (by decide)

/-- Every entry the weighted table can yield is a table element. -/
lemma dividers_getD_mem (i : Nat) (h : i < 6) :
    NOTE_DURATION_DIVIDERS.getD i 0 ∈ NOTE_DURATION_DIVIDERS := by
  interval_cases i <;> decide

/-- Fixed random oracle (always 0) for the C7 counterexample run. -/
def rng_zero : Nat → Nat := fun _ => 0

/-- Chime state after three calls at times 0, 1000 and 2000 ms from the
zero-initialized state; all three emit a note (the initial note duration
is 0, then 666 ms at 90 BPM with divider 1). -/
def chime_run3 : BuzzerState :=
  play_chime rng_zero 2000 (play_chime rng_zero 1000 (play_chime rng_zero 0 buzzer_init))

/-- Counterexample to C7 as stated: with the all-zero random oracle the
divider is 1, and the divider is redrawn at the 1st and 3rd notes — two
draws within 3 notes played, not exactly once every 16 notes (the redraw
fires when the note counter exceeds the current divider, i.e. every
`divider + 1` notes). -/
theorem buzzer_chime_divider_counterexample :
    chime_run3.notes_played = 3 ∧ chime_run3.divider_draws = 2 := by
  decide

/-- C7 amended: the note-duration divisor is only ever assigned values
drawn from the weighted table {1, 2, 2, 2, 4, 8}, with the note duration
recomputed as 60000 / BPM / divisor at each draw, but a fresh divisor is
drawn whenever the per-note counter exceeds the current divisor — every
`divider + 1` notes played since the last draw — not once every 16
notes.  When no note is due nothing changes but the wrap-resynchronized
chime timer. -/
theorem buzzer_chime_divider_redraw (rng : Nat → Nat) (now : Nat) (s : BuzzerState)
    (hre : s.chime_timer ≤ now) :
    (now - s.chime_timer < s.chime_note_duration → play_chime rng now s = s) ∧
    (s.chime_note_duration ≤ now - s.chime_timer →
      (play_chime rng now s).notes_played = s.notes_played + 1 ∧
      ((s.note_counter + 1) % 256 > s.note_duration_divider →
        (play_chime rng now s).divider_draws = s.divider_draws + 1 ∧
        (play_chime rng now s).note_duration_divider ∈ NOTE_DURATION_DIVIDERS ∧
        (play_chime rng now s).chime_note_duration =
          60000 / 90 / (play_chime rng now s).note_duration_divider ∧
        (play_chime rng now s).note_counter = 0) ∧
      ((s.note_counter + 1) % 256 ≤ s.note_duration_divider →
        (play_chime rng now s).divider_draws = s.divider_draws ∧
        (play_chime rng now s).note_duration_divider = s.note_duration_divider ∧
        (play_chime rng now s).note_counter = (s.note_counter + 1) % 256)) := by
  have hre' : ¬ (s.chime_timer > now) := by omega
  constructor
  · intro hlt
    simp only [play_chime]
    rw [if_neg hre', if_neg (by omega : ¬ (now - s.chime_timer ≥ s.chime_note_duration))]
  · intro hge
    simp only [play_chime]
    rw [if_neg hre', if_pos (by omega : now - s.chime_timer ≥ s.chime_note_duration)]
    set X := play_note now
      (ALARM_CHIME_NOTES.getD (rng (s.rand_used + 1) % ALARM_CHIME_NOTES_N) 0)
      (chime_velocity (rng s.rand_used))
      { s with chime_timer := now, attack_pwm_value := chime_velocity (rng s.rand_used),
               rand_used := s.rand_used + 2, notes_played := s.notes_played + 1 } with hX
    have hc1 : X.note_counter = s.note_counter := by
      rw [hX]; exact (play_note_preserves _ _ _ _).1
    have hc2 : X.note_duration_divider = s.note_duration_divider := by
      rw [hX]; exact (play_note_preserves _ _ _ _).2.1
    have hc3 : X.divider_draws = s.divider_draws := by
      rw [hX]; exact (play_note_preserves _ _ _ _).2.2.1
    have hc4 : X.notes_played = s.notes_played + 1 := by
      rw [hX]; exact (play_note_preserves _ _ _ _).2.2.2.1
    have hc5 : X.rand_used = s.rand_used + 2 := by
      rw [hX]; exact (play_note_preserves _ _ _ _).2.2.2.2.1
    simp only [hc1, hc2, hc3, hc4, hc5, NOTE_DURATION_DIVIDERS_N]
    split_ifs with hc
    · refine ⟨rfl, fun _ => ⟨rfl, ?_, rfl, rfl⟩, fun hle => absurd hc (by omega)⟩
      exact dividers_getD_mem _ (Nat.mod_lt _ (by norm_num))
    · exact ⟨rfl, fun hgt => absurd hgt hc, fun _ => ⟨rfl, rfl, rfl⟩⟩

/-- Witness for C7 (amended): the second chime call emits a note without
redrawing the divider (counter 1 is not above divider 1), and the third
emits and redraws. -/
theorem buzzer_chime_divider_redraw_witness :
    (play_chime rng_zero 1000 (play_chime rng_zero 0 buzzer_init)).divider_draws =
        (play_chime rng_zero 0 buzzer_init).divider_draws ∧
      (play_chime rng_zero 1000 (play_chime rng_zero 0 buzzer_init)).notes_played =
        (play_chime rng_zero 0 buzzer_init).notes_played + 1 := by
  have h := buzzer_chime_divider_redraw rng_zero 1000
    (play_chime rng_zero 0 buzzer_init) (by decide)
  exact ⟨((h.2 (by decide)).2.2 (by decide)).1, (h.2 (by decide)).1⟩

/-! ## Clock-wrap tolerance (C8) -/

/-- Counterexample to C8 as stated: `Power::regulate` performs no
wrapped-clock resynchronization.  With stored `time_started = 5000` and
a wrapped current time of 100 ms, the stored timestamp stays 5000
(claim: it is resynchronized to 100) and the wrapped uint64 elapsed
value far exceeds the ramp time, so the target setpoint is used. -/
theorem regulate_wrap_counterexample :
    (regulate_soft_start 100 5000 180).1 = 5000 ∧
      (regulate_soft_start 100 5000 180).2 = 180 ∧ (5000 : Nat) ≠ 100 := by
  exact ⟨by decide, by decide, by decide⟩

/-- C8 amended: `Buzzer::decay` and `Buzzer::play_chime` resynchronize
their stored timestamp to the current time whenever it exceeds the
current time, before comparing elapsed time against their constants —
they behave exactly as if the stored timestamp had been the current
time.  `Power::regulate` does not: its stored `time_started` is kept
unchanged whenever it is nonzero, wrapped clock or not. -/
theorem timed_wrap_resync (now : Nat) (s : BuzzerState) (rng : Nat → Nat)
    (ts sp : Nat) (hdw : s.decay_timer > now) (hcw : s.chime_timer > now)
    (hts : ts ≠ 0) :
    decay now s = decay now { s with decay_timer := now } ∧
    play_chime rng now s = play_chime rng now { s with chime_timer := now } ∧
    (regulate_soft_start now ts sp).1 = ts := by
  refine ⟨?_, ?_, ?_⟩
  · simp [decay, hdw]
  · simp [play_chime, hcw]
  · simp [regulate_soft_start, hts]

/-- Witness for C8 (amended) at concrete wrapped timestamps. -/
theorem timed_wrap_resync_witness :
    decay 5 { buzzer_init with decay_timer := 10, chime_timer := 12 } =
        decay 5 { { buzzer_init with decay_timer := 10, chime_timer := 12 } with
          decay_timer := 5 } ∧
      (regulate_soft_start 5 7 9).1 = 7 := by
  have h := timed_wrap_resync 5
    { buzzer_init with decay_timer := 10, chime_timer := 12 } rng_zero 7 9
    (by decide) (by decide) (by decide)
  exact ⟨h.1, h.2.2⟩

end In17
